import Mathlib

/-!
Shallow embedding of the search-ranking core of the `app_review_search`
repository, together with proofs of the specification claims about it.

The embedding follows the Python source:
* `core/models.py` — the `App` record (primary key `id`, unique `name`);
* `core/views.py` — `AppSearchResultsView.get_queryset` (hybrid search) and
  `search_suggestions` (web autocomplete);
* `core/api_views.py` — `AppListAPIView.get_queryset` (same hybrid search;
  its unordered catalog fetch is modelled, like every unordered Django
  queryset here, as the catalog in primary-key order) and
  `AppSuggestionsAPIView.get_queryset` (API autocomplete);
* `core/apps.py` — `CoreConfig.ready` (artifact loading);
* `core/management/commands/initialize_tfidf.py` — `Command.handle`
  (model rebuild and artifact writing).

Floating point cosine similarities are modelled as rationals: the claims
under audit concern the selection, ordering, merging and persistence logic,
which is independent of the numeric representation of a score.  The sklearn
vectorizer (`TfidfVectorizer().fit`, `transform`, `linear_kernel`) is an
external library treated by the repository as an opaque deterministic
collaborator, so it enters the embedding as a function parameter or as the
`score` field of a loaded model; a Python exception raised while scoring is
modelled as the scoring function returning `none`.
-/

namespace AppReviewSearch

/-- An app record (`core/models.py`): stable primary key and name. -/
structure App where
  id : Nat
  name : String
deriving DecidableEq, Repr

/-- Python `str.strip()`: drop leading and trailing whitespace. -/
def pyStrip (s : String) : String :=
  String.mk
    (((s.data.dropWhile Char.isWhitespace).reverse.dropWhile
      Char.isWhitespace).reverse)

/-- Python `str.lower()` as used by the case-insensitive Django lookups. -/
def lowerStr (s : String) : String :=
  String.mk (s.data.map Char.toLower)

/-- Lexicographic comparison of char lists by code point, the database
collation behind `order_by('name')`. -/
def lexLE : List Char → List Char → Bool
  | [], _ => true
  | _ :: _, [] => false
  | a :: as, b :: bs =>
    if a < b then true else if b < a then false else lexLE as bs

/-- Substring test on char lists: `containsSubList need hay` is true when
`need` occurs contiguously inside `hay`. -/
def containsSubList (need : List Char) : List Char → Bool
  | [] => need.isEmpty
  | c :: t => need.isPrefixOf (c :: t) || containsSubList need t

/-- Django `name__icontains=q`: case-insensitive substring match. -/
def icontains (name q : String) : Bool :=
  containsSubList (lowerStr q).data (lowerStr name).data

/-- Django `name__iexact=q`: case-insensitive name equality. -/
def iexact (name q : String) : Bool :=
  lowerStr name == lowerStr q

/-- `App.objects.filter(name__iexact=query).first()`: Django's `first()` on an
unordered queryset orders by primary key, so this is the first
case-insensitive match in the pk-ordered catalog. -/
def iexactFirst (apps : List App) (q : String) : Option App :=
  (apps.filter (fun a => iexact a.name q)).head?

/-- Alphabetical comparison used by `order_by('name')`. -/
def nameLE (a b : App) : Prop :=
  lexLE a.name.data b.name.data = true

instance : DecidableRel nameLE :=
  fun a b => inferInstanceAs (Decidable (lexLE a.name.data b.name.data = true))

theorem lexLE_total (x y : List Char) : lexLE x y = true ∨ lexLE y x = true := by
  induction x generalizing y with
  | nil => exact Or.inl rfl
  | cons a as ih =>
    cases y with
    | nil => exact Or.inr rfl
    | cons b bs =>
      rcases lt_trichotomy a b with h | h | h
      · exact Or.inl (by simp [lexLE, h])
      · subst h
        rcases ih bs with h' | h'
        · exact Or.inl (by simp [lexLE, h'])
        · exact Or.inr (by simp [lexLE, h'])
      · exact Or.inr (by simp [lexLE, h])

theorem lexLE_trans {x y z : List Char} (h1 : lexLE x y = true)
    (h2 : lexLE y z = true) : lexLE x z = true := by
  induction x generalizing y z with
  | nil => rfl
  | cons a as ih =>
    cases y with
    | nil => simp [lexLE] at h1
    | cons b bs =>
      cases z with
      | nil => simp [lexLE] at h2
      | cons c cs =>
        rw [lexLE] at h1 h2 ⊢
        by_cases hab : a < b
        · have hbc : ¬ c < b := by
            intro hcb
            rw [if_neg (asymm hcb), if_pos hcb] at h2
            exact Bool.false_ne_true h2
          have hac : a < c := lt_of_lt_of_le hab (not_lt.mp hbc)
          rw [if_pos hac]
        · rw [if_neg hab] at h1
          by_cases hba : b < a
          · rw [if_pos hba] at h1
            exact absurd h1 Bool.false_ne_true
          · rw [if_neg hba] at h1
            have hab' : a = b := le_antisymm (not_lt.mp hba) (not_lt.mp hab)
            subst hab'
            by_cases hac : a < c
            · rw [if_pos hac]
            · rw [if_neg hac] at h2 ⊢
              by_cases hca : c < a
              · rw [if_pos hca] at h2
                exact absurd h2 Bool.false_ne_true
              · rw [if_neg hca] at h2 ⊢
                exact ih h1 h2

instance : IsTotal App nameLE :=
  ⟨fun a b => lexLE_total a.name.data b.name.data⟩

instance : IsTrans App nameLE :=
  ⟨fun _ _ _ h h' => lexLE_trans h h'⟩

/-- `App.objects.filter(name__icontains=query).order_by('name')`: the
case-insensitive substring matches of the catalog, sorted alphabetically. -/
def substringByName (apps : List App) (q : String) : List App :=
  List.insertionSort nameLE (apps.filter (fun a => icontains a.name q))

/-- The loaded TF-IDF state (`tfidf_vectorizer` together with `tfidf_matrix`):
at query time the views only use it through
`linear_kernel(tfidf_vectorizer.transform([query]), tfidf_matrix).flatten()`,
one cosine similarity per matrix row, so the pair is embedded as that scoring
function; `none` models a Python exception raised during this computation. -/
structure VectorModel where
  score : String → Option (List ℚ)

/-- The candidate loop of `AppSearchResultsView.get_queryset`
(`core/views.py` lines 104-114): walk the similarity vector, pair position
`i` with the app at position `i` of the pk-ordered catalog (positions with
no such app are skipped by the `i < len(all_apps)` bound check), keep scores
strictly above the `0.001` threshold and drop the already-placed exact
match. -/
def simPairs (exact_match_app : Option App) (apps : List App) (sims : List ℚ) :
    List (App × ℚ) :=
  (sims.zip apps).filterMap (fun p =>
    if p.1 > mkRat 1 1000 then
      if exact_match_app.any (fun e => p.2.id == e.id) then none
      else some (p.2, p.1)
    else none)

/-- The candidate loop of the suggestion views: same bound check, threshold
compared with `>=` (`0.1` in `core/views.py`, `0.001` in
`core/api_views.py`), and no exact-match exclusion. -/
def suggPairs (apps : List App) (sims : List ℚ) (threshold : ℚ) :
    List (App × ℚ) :=
  (sims.zip apps).filterMap (fun p =>
    if p.1 ≥ threshold then some (p.2, p.1) else none)

/-- Descending comparison on the similarity component. -/
def scoreGE (x y : App × ℚ) : Prop :=
  y.2 ≤ x.2

instance : DecidableRel scoreGE :=
  fun x y => inferInstanceAs (Decidable (y.2 ≤ x.2))

instance : IsTotal (App × ℚ) scoreGE :=
  ⟨fun x y => le_total y.2 x.2⟩

instance : IsTrans (App × ℚ) scoreGE :=
  ⟨fun _ _ _ h h' => le_trans h' h⟩

/-- `similar_apps_with_scores.sort(key=lambda x: x[1], reverse=True)`:
Python's sort is stable, and a stable descending sort by score is insertion
sort with the non-strict descending comparison. -/
def sortByScoreDesc (l : List (App × ℚ)) : List (App × ℚ) :=
  List.insertionSort scoreGE l

/-- The TF-IDF stage outcome: `none` when the model globals are `None` or
when scoring raised an exception; otherwise the sorted candidate list
(`similar_apps_with_scores` after the sort). -/
def scoredOf (model : Option VectorModel) (exact_match_app : Option App)
    (apps : List App) (query : String) : Option (List (App × ℚ)) :=
  match model with
  | some m => (m.score query).map
      (fun sims => sortByScoreDesc (simPairs exact_match_app apps sims))
  | none => none

/-- The `tfidf_results_found` flag: true exactly when the TF-IDF stage ran
and produced a non-empty candidate list. -/
def foundOf (scored : Option (List (App × ℚ))) : Bool :=
  match scored with
  | some l => !l.isEmpty
  | none => false

/-- The result buffer right after the TF-IDF stage: the exact match (if any)
followed by at most `50 - len(results_list)` of the sorted candidates
(`results_list` holds just the exact match at that point). -/
def vectorBuffer (exact_match_app : Option App)
    (scored : Option (List (App × ℚ))) : List App :=
  let buf0 := exact_match_app.toList
  match scored with
  | some l => buf0 ++ (l.take (50 - buf0.length)).map Prod.fst
  | none => buf0

/-- The `icontains` fallback loop (`core/views.py` lines 150-153): walk the
alphabetical substring matches and append each app whose id is not already
in the buffer. -/
def appendFallback (buf : List App) (fallback_results : List App) : List App :=
  fallback_results.foldl
    (fun acc a => if acc.any (fun b => b.id == a.id) then acc
      else acc ++ [a]) buf

/-- The ordered result buffer built by `AppSearchResultsView.get_queryset`
(`core/views.py` lines 62-154) for an already-stripped query: exact stage,
TF-IDF stage (skipped when the model globals are `None`, contributing
nothing when scoring raises), then the `icontains` fallback, which runs
exactly when the TF-IDF stage found nothing
(`if not tfidf_results_found or (not exact_match_app and not
tfidf_results_found)`). -/
def searchBuffer (model : Option VectorModel) (apps : List App)
    (query : String) : List App :=
  if query = "" then []
  else
    let exact_match_app := iexactFirst apps query
    let scored := scoredOf model exact_match_app apps query
    let tfidf_results_found := foundOf scored
    let buf1 := vectorBuffer exact_match_app scored
    if !tfidf_results_found ||
        (exact_match_app.isNone && !tfidf_results_found) then
      appendFallback buf1 (substringByName apps query)
    else buf1

/-- The `unique_ids`/`ordered_ids` loop (`core/views.py` lines 163-168):
collect app ids in buffer order, keeping the first occurrence of each. -/
def dedupIds (l : List App) : List Nat :=
  l.foldl (fun acc a => if a.id ∈ acc then acc else acc ++ [a.id]) []

/-- `AppSearchResultsView.get_queryset` (`core/views.py`) and
`AppListAPIView.get_queryset` (`core/api_views.py`): strip the raw query,
build the result buffer, and materialize the deduplicated id order (the
`Case`/`When` queryset preserves exactly this order). -/
def get_queryset (model : Option VectorModel) (apps : List App)
    (rawQuery : String) : List Nat :=
  dedupIds (searchBuffer model apps (pyStrip rawQuery))

/-- `search_suggestions` (`core/views.py` lines 212-266): minimum stripped
length 3; length 3-4 takes the first 10 `icontains` matches of the
unordered queryset (catalog order); length 5 and up uses the TF-IDF stage
with threshold `sim >= 0.1` sorted descending and capped at 10, falling
back to the unordered `icontains` slice when the model is absent or scoring
raises. -/
def search_suggestions (model : Option VectorModel) (apps : List App)
    (rawQuery : String) : List String :=
  let query := pyStrip rawQuery
  if 3 ≤ query.length then
    if query.length ≤ 4 then
      ((apps.filter (fun a => icontains a.name query)).take 10).map
        (fun a => a.name)
    else
      match model with
      | some m =>
        match m.score query with
        | some sims =>
          ((sortByScoreDesc (suggPairs apps sims (mkRat 1 10))).take 10).map
            (fun p => p.1.name)
        | none =>
          ((apps.filter (fun a => icontains a.name query)).take 10).map
            (fun a => a.name)
      | none =>
        ((apps.filter (fun a => icontains a.name query)).take 10).map
          (fun a => a.name)
  else []

/-- `AppSuggestionsAPIView.get_queryset` (`core/api_views.py` lines
138-171): any non-empty stripped query is served; length up to 4 takes the
first 10 `icontains` matches ordered by name; length 5 and up uses the
TF-IDF stage with threshold `sim >= 0.001` sorted descending and capped at
10, falling back to the alphabetical `icontains` slice. -/
def api_suggestions (model : Option VectorModel) (apps : List App)
    (rawQuery : String) : List App :=
  let query := pyStrip rawQuery
  if query = "" then []
  else if query.length ≤ 4 then
    (substringByName apps query).take 10
  else
    match model with
    | some m =>
      match m.score query with
      | some sims =>
        ((sortByScoreDesc (suggPairs apps sims (mkRat 1 1000))).take 10).map
          Prod.fst
      | none => (substringByName apps query).take 10
    | none => (substringByName apps query).take 10

/-- The `list` method of `AppSuggestionsAPIView`: the suggestion payload is
the names of the queryset. -/
def api_suggestion_names (model : Option VectorModel) (apps : List App)
    (rawQuery : String) : List String :=
  (api_suggestions model apps rawQuery).map (fun a => a.name)

/-- The artifact pair on disk (`data/tfidf_vectorizer.pkl` and
`data/tfidf_matrix.pkl`); `none` means the file does not exist, `some bs`
means it exists with byte contents `bs`. -/
structure ModelDir where
  vecFile : Option (List Nat)
  matFile : Option (List Nat)
deriving DecidableEq, Repr

/-- One primitive file operation of `Command.handle`: `open(path, 'wb')`
truncates the file in place, and `pickle.dump` then appends bytes to it. -/
inductive FileOp where
  | truncVec
  | putVec (b : Nat)
  | truncMat
  | putMat (b : Nat)
deriving DecidableEq, Repr

/-- Effect of one file operation on the artifact directory. -/
def applyOp (s : ModelDir) : FileOp → ModelDir
  | .truncVec => { s with vecFile := some [] }
  | .putVec b => { s with vecFile := some ((s.vecFile.getD []) ++ [b]) }
  | .truncMat => { s with matFile := some [] }
  | .putMat b => { s with matFile := some ((s.matFile.getD []) ++ [b]) }

/-- Run a sequence of file operations; a rebuild that fails partway has
executed only a prefix of the sequence. -/
def runOps (s : ModelDir) (ops : List FileOp) : ModelDir :=
  ops.foldl applyOp s

/-- The write sequence of `Command.handle`
(`core/management/commands/initialize_tfidf.py` lines 48-51) for a
non-empty catalog: open the vectorizer file (truncating it), dump its
bytes, open the matrix file (truncating it), dump its bytes.  There is no
temporary file and no rename in the source. -/
def handleOps (vecB matB : List Nat) : List FileOp :=
  FileOp.truncVec ::
    (vecB.map FileOp.putVec ++ (FileOp.truncMat :: matB.map FileOp.putMat))

/-- `Command.handle`: app names are fetched in pk order by the caller; an
empty catalog removes both artifacts, otherwise both artifacts are
overwritten in place.  `fitEnc` is the deterministic sklearn fit plus
pickle serialization, external to the repository, mapping the name list to
the byte contents of the two artifacts. -/
def handle (fitEnc : List String → List Nat × List Nat)
    (names : List String) (store : ModelDir) : ModelDir :=
  if names.isEmpty then { vecFile := none, matFile := none }
  else runOps store (handleOps (fitEnc names).1 (fitEnc names).2)

/-- `CoreConfig.ready` (`core/apps.py` lines 33-59): the globals are loaded
only when both artifact files exist and both unpickle successfully
(`loadVec`/`loadMat` return `none` when `pickle.load` raises); any failure
leaves both globals `None`, exactly the never-built state. -/
def ready {α β : Type} (loadVec : List Nat → Option α)
    (loadMat : List Nat → Option β) (store : ModelDir) :
    Option α × Option β :=
  match store.vecFile, store.matFile with
  | some vb, some mb =>
    match loadVec vb with
    | some v =>
      match loadMat mb with
      | some m => (some v, some m)
      | none => (none, none)
    | none => (none, none)
  | _, _ => (none, none)

/-- The views see a vector model exactly when both globals are populated;
`mk` packages the two deserialized artifacts into the query-time scoring
function. -/
def loadedModel {α β : Type} (mk : α → β → VectorModel)
    (pair : Option α × Option β) : Option VectorModel :=
  match pair with
  | (some v, some m) => some (mk v m)
  | _ => none

/-- Modelled from the spec: the fallback invariant's expected result — the
exact match, if any, followed by the case-insensitive substring matches
ordered alphabetically by name, deduplicated against the exact match. -/
def fallbackSpec (apps : List App) (q : String) : List Nat :=
  let exactIds := (iexactFirst apps q).toList.map (fun a => a.id)
  exactIds ++
    ((substringByName apps q).map (fun a => a.id)).filter
      (fun i => !(exactIds.contains i))

/-- The catalog snapshot invariant: apps listed in strictly ascending
primary-key order (`App.objects.all().order_by('pk')` with unique pks). -/
def PkSorted (apps : List App) : Prop :=
  apps.Pairwise (fun a b => a.id < b.id)

instance (apps : List App) : Decidable (PkSorted apps) :=
  inferInstanceAs (Decidable (apps.Pairwise (fun (a b : App) => a.id < b.id)))

/-! ### Lemmas about the artifact store and the rebuild command -/

theorem runOps_append (s : ModelDir) (l1 l2 : List FileOp) :
    runOps s (l1 ++ l2) = runOps (runOps s l1) l2 :=
  List.foldl_append ..

theorem runOps_putVec (bs : List Nat) :
    ∀ (s : ModelDir) (acc : List Nat),
      runOps { s with vecFile := some acc } (bs.map FileOp.putVec)
        = { s with vecFile := some (acc ++ bs) } := by
  induction bs with
  | nil => intro s acc; simp [runOps]
  | cons b t ih =>
    intro s acc
    have step : runOps { s with vecFile := some acc }
        ((b :: t).map FileOp.putVec)
        = runOps { s with vecFile := some (acc ++ [b]) }
            (t.map FileOp.putVec) := by
      simp [runOps, applyOp]
    rw [step, ih]
    simp

theorem runOps_putMat (bs : List Nat) :
    ∀ (s : ModelDir) (acc : List Nat),
      runOps { s with matFile := some acc } (bs.map FileOp.putMat)
        = { s with matFile := some (acc ++ bs) } := by
  induction bs with
  | nil => intro s acc; simp [runOps]
  | cons b t ih =>
    intro s acc
    have step : runOps { s with matFile := some acc }
        ((b :: t).map FileOp.putMat)
        = runOps { s with matFile := some (acc ++ [b]) }
            (t.map FileOp.putMat) := by
      simp [runOps, applyOp]
    rw [step, ih]
    simp

theorem runOps_handleOps (s : ModelDir) (v m : List Nat) :
    runOps s (handleOps v m) = ModelDir.mk (some v) (some m) := by
  show runOps s (FileOp.truncVec ::
      (v.map FileOp.putVec ++ (FileOp.truncMat :: m.map FileOp.putMat)))
    = ModelDir.mk (some v) (some m)
  have h0 : runOps s (FileOp.truncVec ::
      (v.map FileOp.putVec ++ (FileOp.truncMat :: m.map FileOp.putMat)))
      = runOps { s with vecFile := some [] }
          (v.map FileOp.putVec ++ (FileOp.truncMat :: m.map FileOp.putMat)) := by
    simp [runOps, applyOp]
  rw [h0, runOps_append, runOps_putVec]
  have h1 : runOps { s with vecFile := some ([] ++ v) }
      (FileOp.truncMat :: m.map FileOp.putMat)
      = runOps { s with vecFile := some v, matFile := some [] }
          (m.map FileOp.putMat) := by
    simp [runOps, applyOp]
  rw [h1]
  have h2 := runOps_putMat m { s with vecFile := some v } []
  simpa using h2

theorem take_length_append {α : Type} (l1 l2 : List α) (n : Nat) :
    (l1 ++ l2).take (l1.length + n) = l1 ++ l2.take n := by
  induction l1 with
  | nil => simp
  | cons a t ih => simpa [Nat.succ_add] using ih

theorem handleOps_take_mid (v m : List Nat) :
    (handleOps v m).take (v.length + 2)
      = FileOp.truncVec :: (v.map FileOp.putVec ++ [FileOp.truncMat]) := by
  show (FileOp.truncVec ::
      (v.map FileOp.putVec ++ (FileOp.truncMat :: m.map FileOp.putMat))).take
        (v.length + 2)
    = FileOp.truncVec :: (v.map FileOp.putVec ++ [FileOp.truncMat])
  have hv : v.length + 2 = (v.length + 1) + 1 := rfl
  rw [hv, List.take_succ_cons]
  have hlen : (v.map FileOp.putVec).length + 1 = v.length + 1 := by simp
  rw [← hlen, take_length_append]
  simp

theorem runOps_handleOps_mid (s : ModelDir) (v m : List Nat) :
    runOps s ((handleOps v m).take (v.length + 2))
      = ModelDir.mk (some v) (some []) := by
  rw [handleOps_take_mid]
  have h0 : runOps s
      (FileOp.truncVec :: (v.map FileOp.putVec ++ [FileOp.truncMat]))
      = runOps { s with vecFile := some [] }
          (v.map FileOp.putVec ++ [FileOp.truncMat]) := by
    simp [runOps, applyOp]
  rw [h0, runOps_append, runOps_putVec]
  simp [runOps, applyOp]

theorem handle_eq_of_ne_nil (fitEnc : List String → List Nat × List Nat)
    (names : List String) (store : ModelDir) (h : names ≠ []) :
    handle fitEnc names store
      = ModelDir.mk (some (fitEnc names).1) (some (fitEnc names).2) := by
  unfold handle
  rw [if_neg (by simpa using h)]
  exact runOps_handleOps ..

/-- C5 counterexample: with the previous artifact pair `([1,2], [3,4])` and a
rebuild producing `([7,8], [9,10])`, the rebuild that fails after executing
only its first four file operations (that is, just after `open(path, 'wb')`
truncated the matrix file) leaves the store with the new vectorizer and an
empty matrix — neither the previous pair (so the previous artifacts are not
left untouched) nor the completed new pair (so a reader observes a partially
written artifact).  The write sequence `handleOps` contains no temporary
file and no rename. -/
theorem rebuild_atomicity_counterexample :
    runOps (ModelDir.mk (some [1, 2]) (some [3, 4]))
        ((handleOps [7, 8] [9, 10]).take 4)
      = ModelDir.mk (some [7, 8]) (some [])
    ∧ runOps (ModelDir.mk (some [1, 2]) (some [3, 4]))
        ((handleOps [7, 8] [9, 10]).take 4)
      ≠ ModelDir.mk (some [1, 2]) (some [3, 4])
    ∧ runOps (ModelDir.mk (some [1, 2]) (some [3, 4]))
        ((handleOps [7, 8] [9, 10]).take 4)
      ≠ runOps (ModelDir.mk (some [1, 2]) (some [3, 4]))
          (handleOps [7, 8] [9, 10]) := by
  decide

/-- C5 amended: the rebuild overwrites the artifact pair in place — each file
is truncated by `open(path, 'wb')` and then written, with no temporary file
and no rename.  A completed rebuild leaves exactly the new pair, but a
rebuild interrupted right after the matrix file is truncated leaves the new
vectorizer bytes next to an empty matrix file, a state that is neither the
previous pair nor the new pair, observable by any reader. -/
theorem rebuild_inplace_overwrite (s : ModelDir) (v m : List Nat) :
    runOps s (handleOps v m) = ModelDir.mk (some v) (some m)
    ∧ runOps s ((handleOps v m).take (v.length + 2))
        = ModelDir.mk (some v) (some []) :=
  ⟨runOps_handleOps s v m, runOps_handleOps_mid s v m⟩

/-- C7: rebuilding twice from the same pk-ordered snapshot of a non-empty
catalog leaves the artifact store in the identical state (the rebuild's
result does not depend on the store it starts from), and therefore any
loading procedure yields the same model and every query yields the
identical ranked-id order. -/
theorem rebuild_deterministic (fitEnc : List String → List Nat × List Nat)
    (names : List String) (s0 : ModelDir)
    (decode : ModelDir → Option VectorModel) (apps : List App) (q : String)
    (h : names ≠ []) :
    handle fitEnc names (handle fitEnc names s0) = handle fitEnc names s0
    ∧ get_queryset (decode (handle fitEnc names (handle fitEnc names s0)))
        apps q
      = get_queryset (decode (handle fitEnc names s0)) apps q := by
  have h1 := handle_eq_of_ne_nil fitEnc names s0 h
  have h2 := handle_eq_of_ne_nil fitEnc names (handle fitEnc names s0) h
  refine ⟨h2.trans h1.symm, ?_⟩
  rw [h2.trans h1.symm]

/-- Witness for C7 at a concrete catalog, store and query. -/
theorem rebuild_deterministic_witness :
    (["Facebook"] ≠ ([] : List String))
    ∧ (handle (fun _ => ([1], [2])) ["Facebook"]
          (handle (fun _ => ([1], [2])) ["Facebook"]
            (ModelDir.mk none none))
        = handle (fun _ => ([1], [2])) ["Facebook"] (ModelDir.mk none none)
      ∧ get_queryset ((fun _ => none)
            (handle (fun _ => ([1], [2])) ["Facebook"]
              (handle (fun _ => ([1], [2])) ["Facebook"]
                (ModelDir.mk none none))))
          [App.mk 1 "Facebook"] "face"
        = get_queryset ((fun _ => none)
              (handle (fun _ => ([1], [2])) ["Facebook"]
                (ModelDir.mk none none)))
            [App.mk 1 "Facebook"] "face") :=
  ⟨by decide,
    rebuild_deterministic (fun _ => ([1], [2])) ["Facebook"]
      (ModelDir.mk none none) (fun _ => none) [App.mk 1 "Facebook"] "face"
      (by decide)⟩

/-! ### Generic list lemmas for the search-stage proofs -/

theorem mem_zip_iff_getElem? {α β : Type} {x : α} {y : β}
    {l1 : List α} {l2 : List β} :
    (x, y) ∈ l1.zip l2 ↔ ∃ i : Nat, l1[i]? = some x ∧ l2[i]? = some y := by
  constructor
  · intro h
    rcases List.mem_iff_getElem?.mp h with ⟨i, hi⟩
    rcases List.getElem?_zip_eq_some.mp hi with ⟨h1, h2⟩
    exact ⟨i, h1, h2⟩
  · rintro ⟨i, h1, h2⟩
    exact List.mem_iff_getElem?.mpr ⟨i, List.getElem?_zip_eq_some.mpr ⟨h1, h2⟩⟩

theorem pairwise_zip_right {α β : Type} {R : β → β → Prop} :
    ∀ (l1 : List α) {l2 : List β}, l2.Pairwise R →
      (l1.zip l2).Pairwise (fun p q => R p.2 q.2) := by
  intro l1
  induction l1 with
  | nil => intro l2 _; simp
  | cons a as ih =>
    intro l2 h
    cases l2 with
    | nil => simp
    | cons b bs =>
      rw [List.zip_cons_cons]
      refine List.Pairwise.cons ?_ (ih (List.Pairwise.of_cons h))
      rintro ⟨qa, qb⟩ hq
      exact (List.pairwise_cons.mp h).1 qb (List.of_mem_zip hq).2

theorem pairwise_filterMap_of {α β : Type} {R : α → α → Prop}
    {S : β → β → Prop} (f : α → Option β)
    (hf : ∀ a b x y, R a b → f a = some x → f b = some y → S x y) :
    ∀ {l : List α}, l.Pairwise R → (l.filterMap f).Pairwise S := by
  intro l
  induction l with
  | nil => intro _; simp
  | cons a t ih =>
    intro h
    rcases hfa : f a with _ | x
    · simpa [List.filterMap_cons, hfa] using ih (List.Pairwise.of_cons h)
    · rw [List.filterMap_cons, hfa]
      refine List.Pairwise.cons ?_ (ih (List.Pairwise.of_cons h))
      intro y hy
      rcases List.mem_filterMap.mp hy with ⟨b, hb, hfb⟩
      exact hf a b x y ((List.pairwise_cons.mp h).1 b hb) hfa hfb

theorem any_beq_id (acc : List App) (i : Nat) :
    (acc.any (fun b => b.id == i))
      = ((acc.map (fun b => b.id)).contains i) := by
  rw [Bool.eq_iff_iff]
  rw [List.contains_eq_any_beq]
  constructor
  · intro h
    rcases List.any_eq_true.mp h with ⟨b, hb, hbi⟩
    have hbi' : b.id = i := by simpa using hbi
    exact List.any_eq_true.mpr
      ⟨b.id, List.mem_map.mpr ⟨b, hb, rfl⟩, by simp [hbi']⟩
  · intro h
    rcases List.any_eq_true.mp h with ⟨x, hx, hxi⟩
    rcases List.mem_map.mp hx with ⟨b, hb, rfl⟩
    have hib : i = b.id := by simpa using hxi
    exact List.any_eq_true.mpr ⟨b, hb, by simp [hib]⟩

theorem fold_skip_prefix (l : List App) :
    ∀ acc : List App, ∃ r, appendFallback acc l = acc ++ r := by
  unfold appendFallback
  induction l with
  | nil => intro acc; exact ⟨[], by simp⟩
  | cons a t ih =>
    intro acc
    simp only [List.foldl_cons]
    by_cases h : acc.any (fun b => b.id == a.id) = true
    · rw [if_pos h]
      exact ih acc
    · rw [if_neg h]
      rcases ih (acc ++ [a]) with ⟨r, hr⟩
      exact ⟨a :: r, by rw [hr]; simp⟩

theorem fold_skip_eq (l : List App) :
    ∀ acc : List App, (l.map (fun a => a.id)).Nodup →
      appendFallback acc l
        = acc ++ l.filter
            (fun a => !((acc.map (fun b => b.id)).contains a.id)) := by
  unfold appendFallback
  induction l with
  | nil => intro acc _; simp
  | cons a t ih =>
    intro acc hnd
    simp only [List.map_cons, List.nodup_cons] at hnd
    rcases hnd with ⟨ha, ht⟩
    simp only [List.foldl_cons, List.filter_cons]
    by_cases h : acc.any (fun b => b.id == a.id) = true
    · have hc : ((acc.map (fun b => b.id)).contains a.id) = true := by
        rw [← any_beq_id]; exact h
      rw [if_pos h, ih acc ht, hc]
      simp
    · have hc : ((acc.map (fun b => b.id)).contains a.id) = false := by
        rw [← any_beq_id]
        rwa [Bool.not_eq_true] at h
      have hcongr : t.filter
          (fun x => !(((acc ++ [a]).map (fun b => b.id)).contains x.id))
          = t.filter (fun x => !((acc.map (fun b => b.id)).contains x.id)) := by
        apply List.filter_congr
        intro x hx
        have hxa : x.id ≠ a.id := by
          intro hxe
          exact ha (hxe ▸ List.mem_map.mpr ⟨x, hx, rfl⟩)
        simp [List.contains_eq_any_beq, hxa]
      rw [if_neg h, ih (acc ++ [a]) ht, hcongr, hc]
      simp

theorem dedup_foldl_prefix (l : List App) :
    ∀ acc : List Nat, ∃ r, l.foldl (fun acc a =>
        if a.id ∈ acc then acc else acc ++ [a.id]) acc = acc ++ r
      ∧ List.Sublist r (l.map (fun a => a.id)) := by
  induction l with
  | nil => intro acc; exact ⟨[], by simp, by simp⟩
  | cons a t ih =>
    intro acc
    simp only [List.foldl_cons]
    by_cases h : a.id ∈ acc
    · rw [if_pos h]
      rcases ih acc with ⟨r, hr, hs⟩
      exact ⟨r, hr, hs.trans (List.sublist_cons_self _ _)⟩
    · rw [if_neg h]
      rcases ih (acc ++ [a.id]) with ⟨r, hr, hs⟩
      exact ⟨a.id :: r, by rw [hr]; simp, hs.cons₂ a.id⟩

theorem dedup_foldl_nodup (l : List App) :
    ∀ acc : List Nat, acc.Nodup →
      (l.foldl (fun acc a =>
        if a.id ∈ acc then acc else acc ++ [a.id]) acc).Nodup := by
  induction l with
  | nil => intro acc h; exact h
  | cons a t ih =>
    intro acc h
    simp only [List.foldl_cons]
    by_cases hm : a.id ∈ acc
    · rw [if_pos hm]; exact ih acc h
    · rw [if_neg hm]
      refine ih (acc ++ [a.id]) ?_
      simp [List.nodup_append, h, hm]

theorem dedup_foldl_of_nodup (l : List App) :
    ∀ acc : List Nat, (acc ++ l.map (fun a => a.id)).Nodup →
      l.foldl (fun acc a =>
        if a.id ∈ acc then acc else acc ++ [a.id]) acc
      = acc ++ l.map (fun a => a.id) := by
  induction l with
  | nil => intro acc _; simp
  | cons a t ih =>
    intro acc h
    have hm : a.id ∉ acc := by
      intro hmem
      have : ¬ (acc ++ a.id :: t.map (fun a => a.id)).Nodup := by
        intro hn
        rcases List.nodup_append.mp hn with ⟨_, _, hdisj⟩
        exact hdisj hmem (List.mem_cons_self _ _)
      exact this (by simpa using h)
    simp only [List.foldl_cons]
    rw [if_neg hm]
    have h' : ((acc ++ [a.id]) ++ t.map (fun a => a.id)).Nodup := by
      simpa using h
    rw [ih (acc ++ [a.id]) h']
    simp

theorem dedupIds_nodup (l : List App) : (dedupIds l).Nodup :=
  dedup_foldl_nodup l [] List.nodup_nil

theorem dedupIds_sublist (l : List App) :
    List.Sublist (dedupIds l) (l.map (fun a => a.id)) := by
  rcases dedup_foldl_prefix l [] with ⟨r, hr, hs⟩
  unfold dedupIds
  rw [hr]
  simpa using hs

theorem dedupIds_of_nodup (l : List App)
    (h : (l.map (fun a => a.id)).Nodup) :
    dedupIds l = l.map (fun a => a.id) := by
  unfold dedupIds
  rw [dedup_foldl_of_nodup l [] (by simpa using h)]
  simp

theorem dedupIds_head (a : App) (l : List App) :
    (dedupIds (a :: l)).head? = some a.id := by
  unfold dedupIds
  simp only [List.foldl_cons]
  rw [show (if a.id ∈ ([] : List Nat) then ([] : List Nat)
      else [] ++ [a.id]) = [a.id] by simp]
  rcases dedup_foldl_prefix l [a.id] with ⟨r, hr, -⟩
  rw [hr]
  rfl

theorem pkSorted_nodup_ids {apps : List App} (h : PkSorted apps) :
    (apps.map (fun a => a.id)).Nodup := by
  have hne : apps.Pairwise (fun a b => a.id ≠ b.id) :=
    h.imp (fun hlt => Nat.ne_of_lt hlt)
  exact List.pairwise_map.mpr hne

/-! ### Ordering facts about the score-descending sort -/

/-- Strict descending-score order with ties resolved by ascending app id:
the order in which the vector stage emits candidates. -/
def tieLT (x y : App × ℚ) : Prop :=
  y.2 < x.2 ∨ (x.2 = y.2 ∧ x.1.id < y.1.id)

theorem orderedInsert_tie (a : App × ℚ) :
    ∀ l : List (App × ℚ), l.Sorted scoreGE → l.Pairwise tieLT →
      (∀ b ∈ l, a.1.id < b.1.id) →
      (l.orderedInsert scoreGE a).Pairwise tieLT := by
  intro l
  induction l with
  | nil =>
    intro _ _ _
    simp [List.orderedInsert]
  | cons b t ih =>
    intro hs hp hlt
    rw [List.orderedInsert]
    by_cases hab : scoreGE a b
    · rw [if_pos hab]
      refine List.Pairwise.cons ?_ hp
      intro c hc
      have hca : c.2 ≤ a.2 := by
        rcases List.mem_cons.mp hc with rfl | hct
        · exact hab
        · exact le_trans (List.rel_of_sorted_cons hs c hct) hab
      rcases lt_or_eq_of_le hca with hlt2 | heq
      · exact Or.inl hlt2
      · exact Or.inr ⟨heq.symm, hlt c hc⟩
    · rw [if_neg hab]
      have hba : a.2 < b.2 := lt_of_not_le hab
      refine List.Pairwise.cons ?_ ?_
      · intro c hc
        rcases (List.mem_orderedInsert scoreGE).mp hc with rfl | hct
        · exact Or.inl hba
        · exact (List.pairwise_cons.mp hp).1 c hct
      · exact ih (List.Sorted.of_cons hs) (List.Pairwise.of_cons hp)
          (fun c hc => hlt c (List.mem_cons_of_mem b hc))

theorem sortByScoreDesc_sorted (l : List (App × ℚ)) :
    (sortByScoreDesc l).Sorted scoreGE :=
  List.sorted_insertionSort scoreGE l

theorem sortByScoreDesc_perm (l : List (App × ℚ)) :
    (sortByScoreDesc l).Perm l :=
  List.perm_insertionSort scoreGE l

theorem sortByScoreDesc_tie (l : List (App × ℚ))
    (h : l.Pairwise (fun x y => x.1.id < y.1.id)) :
    (sortByScoreDesc l).Pairwise tieLT := by
  induction l with
  | nil => simp [sortByScoreDesc, List.insertionSort]
  | cons a t ih =>
    have hstep : sortByScoreDesc (a :: t)
        = (List.insertionSort scoreGE t).orderedInsert scoreGE a := rfl
    rw [hstep]
    refine orderedInsert_tie a _ (List.sorted_insertionSort scoreGE t)
      (ih (List.Pairwise.of_cons h)) ?_
    intro b hb
    exact (List.pairwise_cons.mp h).1 b ((List.mem_insertionSort scoreGE).mp hb)

/-! ### Membership characterization of the candidate loops -/

theorem mem_simPairs {e : Option App} {apps : List App} {sims : List ℚ}
    {a : App} {s : ℚ} :
    (a, s) ∈ simPairs e apps sims ↔
      ((∃ i : Nat, sims[i]? = some s ∧ apps[i]? = some a)
        ∧ mkRat 1 1000 < s
        ∧ ∀ x, e = some x → a.id ≠ x.id) := by
  unfold simPairs
  rw [List.mem_filterMap]
  constructor
  · rintro ⟨⟨ps, pa⟩, hp, hf⟩
    simp only at hf
    by_cases hth : ps > mkRat 1 1000
    · rw [if_pos hth] at hf
      by_cases hex : e.any (fun x => pa.id == x.id) = true
      · rw [if_pos hex] at hf
        cases hf
      · rw [if_neg hex] at hf
        rw [Option.some_inj, Prod.mk.injEq] at hf
        rcases hf with ⟨rfl, rfl⟩
        refine ⟨mem_zip_iff_getElem?.mp hp, hth, ?_⟩
        intro x hx
        intro hid
        rw [hx] at hex
        exact hex (by simpa using hid)
    · rw [if_neg hth] at hf
      cases hf
  · rintro ⟨⟨i, hsi, hai⟩, hth, hex⟩
    refine ⟨(s, a), mem_zip_iff_getElem?.mpr ⟨i, hsi, hai⟩, ?_⟩
    simp only
    rw [if_pos hth]
    have hexf : e.any (fun x => a.id == x.id) = false := by
      rcases e with _ | x
      · simp
      · simpa using hex x rfl
    rw [if_neg (by simp [hexf])]

theorem mem_suggPairs {apps : List App} {sims : List ℚ} {t : ℚ}
    {a : App} {s : ℚ} :
    (a, s) ∈ suggPairs apps sims t ↔
      ((∃ i : Nat, sims[i]? = some s ∧ apps[i]? = some a) ∧ t ≤ s) := by
  unfold suggPairs
  rw [List.mem_filterMap]
  constructor
  · rintro ⟨⟨ps, pa⟩, hp, hf⟩
    simp only at hf
    by_cases hth : ps ≥ t
    · rw [if_pos hth] at hf
      rw [Option.some_inj, Prod.mk.injEq] at hf
      rcases hf with ⟨rfl, rfl⟩
      exact ⟨mem_zip_iff_getElem?.mp hp, hth⟩
    · rw [if_neg hth] at hf
      cases hf
  · rintro ⟨⟨i, hsi, hai⟩, hth⟩
    refine ⟨(s, a), mem_zip_iff_getElem?.mpr ⟨i, hsi, hai⟩, ?_⟩
    simp only
    rw [if_pos hth]

theorem simPairs_pairwise_id {e : Option App} {apps : List App}
    {sims : List ℚ} (h : PkSorted apps) :
    (simPairs e apps sims).Pairwise (fun x y => x.1.id < y.1.id) := by
  unfold simPairs
  refine pairwise_filterMap_of _ ?_ (pairwise_zip_right sims h)
  rintro ⟨ps, pa⟩ ⟨qs, qa⟩ x y hR hx hy
  simp only at hx hy
  by_cases hpt : ps > mkRat 1 1000
  · rw [if_pos hpt] at hx
    by_cases hpe : e.any (fun z => pa.id == z.id) = true
    · rw [if_pos hpe] at hx
      cases hx
    · rw [if_neg hpe] at hx
      by_cases hqt : qs > mkRat 1 1000
      · rw [if_pos hqt] at hy
        by_cases hqe : e.any (fun z => qa.id == z.id) = true
        · rw [if_pos hqe] at hy
          cases hy
        · rw [if_neg hqe] at hy
          rw [Option.some_inj] at hx hy
          rw [← hx, ← hy]
          exact hR
      · rw [if_neg hqt] at hy
        cases hy
  · rw [if_neg hpt] at hx
    cases hx

theorem suggPairs_pairwise_id {apps : List App} {sims : List ℚ} {t : ℚ}
    (h : PkSorted apps) :
    (suggPairs apps sims t).Pairwise (fun x y => x.1.id < y.1.id) := by
  unfold suggPairs
  refine pairwise_filterMap_of _ ?_ (pairwise_zip_right sims h)
  rintro ⟨ps, pa⟩ ⟨qs, qa⟩ x y hR hx hy
  simp only at hx hy
  by_cases hpt : ps ≥ t
  · rw [if_pos hpt] at hx
    by_cases hqt : qs ≥ t
    · rw [if_pos hqt] at hy
      rw [Option.some_inj] at hx hy
      rw [← hx, ← hy]
      exact hR
    · rw [if_neg hqt] at hy
      cases hy
  · rw [if_neg hpt] at hx
    cases hx

/-- C8: no app id appears more than once in the final RankedResult — the
deduplication pass keeps the first occurrence of each id, so the result is
duplicate-free and is an order-preserving subsequence of the buffer's id
sequence (the first occurrence determines the position). -/
theorem ranked_result_nodup (model : Option VectorModel) (apps : List App)
    (q : String) :
    (get_queryset model apps q).Nodup
    ∧ List.Sublist (get_queryset model apps q)
        ((searchBuffer model apps (pyStrip q)).map (fun a => a.id)) :=
  ⟨dedupIds_nodup _, dedupIds_sublist _⟩

/-- C9: a query that is empty after stripping, or an empty catalog, yields
the empty RankedResult (the search function is total, so no error is ever
surfaced). -/
theorem empty_query_empty_catalog (model : Option VectorModel)
    (apps : List App) (q : String)
    (h : pyStrip q = "" ∨ apps = []) :
    get_queryset model apps q = [] := by
  rcases h with h | h
  · unfold get_queryset
    rw [h]
    unfold searchBuffer
    rw [if_pos rfl]
    rfl
  · subst h
    unfold get_queryset searchBuffer
    by_cases hq : pyStrip q = ""
    · rw [if_pos hq]; rfl
    · rw [if_neg hq]
      rcases model with _ | m
      · simp [iexactFirst, scoredOf, foundOf, vectorBuffer, substringByName,
          dedupIds, appendFallback, List.insertionSort]
      · rcases hsc : m.score (pyStrip q) with _ | sims
        · simp [hsc, iexactFirst, scoredOf, foundOf, vectorBuffer,
            substringByName, dedupIds, appendFallback, List.insertionSort]
        · simp [hsc, iexactFirst, scoredOf, foundOf, vectorBuffer,
            substringByName, simPairs, sortByScoreDesc, dedupIds,
            appendFallback, List.insertionSort]

/-- Witness for C9: the all-whitespace query on a non-empty catalog. -/
theorem empty_query_empty_catalog_witness :
    (pyStrip "  " = "" ∨ ([App.mk 1 "Facebook"] : List App) = [])
    ∧ get_queryset none [App.mk 1 "Facebook"] "  " = [] :=
  ⟨Or.inl (by decide),
    empty_query_empty_catalog none [App.mk 1 "Facebook"] "  "
      (Or.inl (by decide))⟩

/-- C10: the candidate loops of the search and suggestion vector stages pair
similarity positions with catalog positions, so a similarity row with no
catalog row at query time is silently skipped: every emitted app is a member
of the query-time catalog, and the number of candidates never exceeds either
the similarity count or the catalog size. -/
theorem vector_stage_in_bounds (e : Option App) (apps : List App)
    (sims : List ℚ) (t : ℚ) :
    (∀ a s, (a, s) ∈ simPairs e apps sims → a ∈ apps)
    ∧ (∀ a s, (a, s) ∈ suggPairs apps sims t → a ∈ apps)
    ∧ (simPairs e apps sims).length ≤ min sims.length apps.length
    ∧ (suggPairs apps sims t).length ≤ min sims.length apps.length := by
  refine ⟨?_, ?_, ?_, ?_⟩
  · intro a s hm
    rcases mem_simPairs.mp hm with ⟨⟨i, _, hai⟩, _, _⟩
    exact List.getElem?_mem hai
  · intro a s hm
    rcases mem_suggPairs.mp hm with ⟨⟨i, _, hai⟩, _⟩
    exact List.getElem?_mem hai
  · have h1 : (simPairs e apps sims).length ≤ (sims.zip apps).length := by
      unfold simPairs
      exact List.length_filterMap_le _ _
    simpa [List.length_zip] using h1
  · have h1 : (suggPairs apps sims t).length ≤ (sims.zip apps).length := by
      unfold suggPairs
      exact List.length_filterMap_le _ _
    simpa [List.length_zip] using h1

/-- Witness for C10: a two-row similarity vector against a one-app catalog
(the model is stale relative to the catalog). -/
theorem vector_stage_in_bounds_witness :
    (∀ a s, (a, s) ∈ simPairs none [App.mk 1 "aa"] [mkRat 1 2, mkRat 1 2]
      → a ∈ [App.mk 1 "aa"])
    ∧ (∀ a s, (a, s) ∈ suggPairs [App.mk 1 "aa"] [mkRat 1 2, mkRat 1 2]
        (mkRat 1 10) → a ∈ [App.mk 1 "aa"])
    ∧ (simPairs none [App.mk 1 "aa"] [mkRat 1 2, mkRat 1 2]).length
        ≤ min [mkRat 1 2, mkRat 1 2].length [App.mk 1 "aa"].length
    ∧ (suggPairs [App.mk 1 "aa"] [mkRat 1 2, mkRat 1 2] (mkRat 1 10)).length
        ≤ min [mkRat 1 2, mkRat 1 2].length [App.mk 1 "aa"].length :=
  vector_stage_in_bounds none [App.mk 1 "aa"] [mkRat 1 2, mkRat 1 2]
    (mkRat 1 10)

/-! ### The fallback path -/

theorem contains_iff_mem {l : List Nat} {i : Nat} :
    l.contains i = true ↔ i ∈ l := by
  rw [List.contains_eq_any_beq]
  simp

theorem substringByName_nodup_ids {apps : List App} (hs : PkSorted apps)
    (q : String) :
    ((substringByName apps q).map (fun a => a.id)).Nodup := by
  have hfil : ((apps.filter (fun a => icontains a.name q)).map
      (fun a => a.id)).Nodup :=
    (pkSorted_nodup_ids hs).sublist
      ((List.filter_sublist apps).map (fun a => a.id))
  have hperm : (substringByName apps q).Perm
      (apps.filter (fun a => icontains a.name q)) :=
    List.perm_insertionSort nameLE _
  exact ((hperm.map (fun a => a.id)).nodup_iff).mpr hfil

theorem option_toList_map_nodup (o : Option App) :
    ((o.toList).map (fun a => a.id)).Nodup := by
  cases o <;> simp

theorem searchBuffer_zero_vector (model : Option VectorModel)
    (apps : List App) (q : String) (hs : PkSorted apps) (hq : q ≠ "")
    (hzero : model = none
      ∨ (∃ m, model = some m ∧ m.score q = none)
      ∨ (∃ m sims, model = some m ∧ m.score q = some sims
          ∧ simPairs (iexactFirst apps q) apps sims = [])) :
    searchBuffer model apps q
      = (iexactFirst apps q).toList
        ++ (substringByName apps q).filter
          (fun a => !((((iexactFirst apps q).toList).map
            (fun b => b.id)).contains a.id)) := by
  have hfold := fold_skip_eq (substringByName apps q)
    ((iexactFirst apps q).toList) (substringByName_nodup_ids hs q)
  unfold searchBuffer
  rw [if_neg hq]
  rcases hzero with rfl | ⟨m, rfl, hsc⟩ | ⟨m, sims, rfl, hsc, hemp⟩
  · simpa [scoredOf, foundOf, vectorBuffer] using hfold
  · simpa [hsc, scoredOf, foundOf, vectorBuffer] using hfold
  · simpa [hsc, hemp, scoredOf, foundOf, vectorBuffer, sortByScoreDesc,
      List.insertionSort] using hfold

theorem dedup_exact_fallback (apps : List App) (q : String)
    (hs : PkSorted apps) :
    dedupIds ((iexactFirst apps q).toList
        ++ (substringByName apps q).filter
          (fun a => !((((iexactFirst apps q).toList).map
            (fun b => b.id)).contains a.id)))
      = fallbackSpec apps q := by
  have hnodup : (((iexactFirst apps q).toList
      ++ (substringByName apps q).filter
        (fun a => !((((iexactFirst apps q).toList).map
          (fun b => b.id)).contains a.id))).map (fun a => a.id)).Nodup := by
    rw [List.map_append, List.nodup_append]
    refine ⟨option_toList_map_nodup _, ?_, ?_⟩
    · exact (substringByName_nodup_ids hs q).sublist
        ((List.filter_sublist (substringByName apps q)).map
          (fun a : App => a.id))
    · intro i hileft hiright
      rcases List.mem_map.mp hiright with ⟨a, ha, rfl⟩
      have hpa : ∀ x, iexactFirst apps q = some x → ¬ x.id = a.id := by
        simpa using List.of_mem_filter ha
      rcases List.mem_map.mp hileft with ⟨b, hb, hid⟩
      rcases ho : iexactFirst apps q with _ | x
      · rw [ho] at hb
        simp at hb
      · rw [ho] at hb
        simp at hb
        exact hpa x ho (hb ▸ hid)
  rw [dedupIds_of_nodup _ hnodup]
  unfold fallbackSpec
  rw [List.map_append]
  congr 1
  rw [List.filter_map]
  apply congrArg
  apply List.filter_congr
  intro a _
  simp [Function.comp]

theorem get_queryset_zero_vector (model : Option VectorModel)
    (apps : List App) (q : String) (hs : PkSorted apps)
    (hq : pyStrip q ≠ "")
    (hzero : model = none
      ∨ (∃ m, model = some m ∧ m.score (pyStrip q) = none)
      ∨ (∃ m sims, model = some m ∧ m.score (pyStrip q) = some sims
          ∧ simPairs (iexactFirst apps (pyStrip q)) apps sims = [])) :
    get_queryset model apps q = fallbackSpec apps (pyStrip q) := by
  unfold get_queryset
  rw [searchBuffer_zero_vector model apps (pyStrip q) hs hq hzero]
  exact dedup_exact_fallback apps (pyStrip q) hs

/-- C2: whenever the vector stage contributes zero qualifying entries —
the model globals are `None`, scoring raised an exception (caught locally,
so the search still returns normally), or no candidate passed the
threshold — the search result is the exact match, if any, followed by the
case-insensitive substring matches in alphabetical order, deduplicated
against the exact match. -/
theorem fallback_invariant (model : Option VectorModel) (apps : List App)
    (q : String) (hs : PkSorted apps) (hq : pyStrip q ≠ "")
    (hzero : model = none
      ∨ (∃ m, model = some m ∧ m.score (pyStrip q) = none)
      ∨ (∃ m sims, model = some m ∧ m.score (pyStrip q) = some sims
          ∧ simPairs (iexactFirst apps (pyStrip q)) apps sims = [])) :
    get_queryset model apps q = fallbackSpec apps (pyStrip q) :=
  get_queryset_zero_vector model apps q hs hq hzero

/-- Witness for C2: the spec's three-app example with an absent model. -/
theorem fallback_invariant_witness :
    PkSorted [App.mk 1 "Facebook", App.mk 2 "Facebook Lite",
      App.mk 3 "Messenger"]
    ∧ pyStrip "facebook" ≠ ""
    ∧ get_queryset none [App.mk 1 "Facebook", App.mk 2 "Facebook Lite",
        App.mk 3 "Messenger"] "facebook"
      = fallbackSpec [App.mk 1 "Facebook", App.mk 2 "Facebook Lite",
        App.mk 3 "Messenger"] (pyStrip "facebook") :=
  ⟨by decide, by decide,
    fallback_invariant none _ "facebook" (by decide) (by decide)
      (Or.inl rfl)⟩

/-! ### Model loading -/

theorem ready_cases {α β : Type} (loadVec : List Nat → Option α)
    (loadMat : List Nat → Option β) (store : ModelDir) :
    (∃ vb mb v m, store.vecFile = some vb ∧ store.matFile = some mb
      ∧ loadVec vb = some v ∧ loadMat mb = some m
      ∧ ready loadVec loadMat store = (some v, some m))
    ∨ ready loadVec loadMat store = (none, none) := by
  rcases hv : store.vecFile with _ | vb
  · right; simp [ready, hv]
  · rcases hm : store.matFile with _ | mb
    · right; simp [ready, hv, hm]
    · rcases hlv : loadVec vb with _ | v
      · right; simp [ready, hv, hm, hlv]
      · rcases hlm : loadMat mb with _ | m
        · right; simp [ready, hv, hm, hlv, hlm]
        · exact Or.inl ⟨vb, mb, v, m, rfl, rfl, hlv, hlm,
            by simp [ready, hv, hm, hlv, hlm]⟩

/-- C6: the model is reported present exactly when both artifact files
exist and both deserialize; any failure leaves both globals `None` — the
never-built state — and with no model the search serves the deduplicated
substring fallback and the suggestion endpoints serve their substring
branches (no request crashes: all embedded request handlers are total
functions). -/
theorem model_load_semantics {α β : Type} (loadVec : List Nat → Option α)
    (loadMat : List Nat → Option β) (store : ModelDir)
    (mk : α → β → VectorModel) (apps : List App) (q : String)
    (hs : PkSorted apps) (hq : pyStrip q ≠ "") :
    ((∃ v m, ready loadVec loadMat store = (some v, some m)) ↔
      (∃ vb mb v m, store.vecFile = some vb ∧ store.matFile = some mb
        ∧ loadVec vb = some v ∧ loadMat mb = some m))
    ∧ (ready loadVec loadMat store = (none, none)
        ∨ ∃ v m, ready loadVec loadMat store = (some v, some m))
    ∧ loadedModel mk (none, none) = none
    ∧ get_queryset none apps q = fallbackSpec apps (pyStrip q)
    ∧ (5 ≤ (pyStrip q).length →
        search_suggestions none apps q
          = ((apps.filter (fun a => icontains a.name (pyStrip q))).take
              10).map (fun a => a.name))
    ∧ (5 ≤ (pyStrip q).length →
        api_suggestions none apps q
          = (substringByName apps (pyStrip q)).take 10) := by
  refine ⟨?_, ?_, rfl, ?_, ?_, ?_⟩
  · constructor
    · rintro ⟨v, m, hvm⟩
      rcases ready_cases loadVec loadMat store with
        ⟨vb, mb, v', m', hv, hm, hlv, hlm, hr⟩ | hr
      · exact ⟨vb, mb, v', m', hv, hm, hlv, hlm⟩
      · rw [hr] at hvm
        cases hvm
    · rintro ⟨vb, mb, v, m, hv, hm, hlv, hlm⟩
      exact ⟨v, m, by simp [ready, hv, hm, hlv, hlm]⟩
  · rcases ready_cases loadVec loadMat store with
      ⟨vb, mb, v, m, _, _, _, _, hr⟩ | hr
    · exact Or.inr ⟨v, m, hr⟩
    · exact Or.inl hr
  · exact get_queryset_zero_vector none apps q hs hq (Or.inl rfl)
  · intro h5
    simp only [search_suggestions]
    rw [if_pos (show 3 ≤ (pyStrip q).length by omega),
      if_neg (show ¬ (pyStrip q).length ≤ 4 by omega)]
  · intro h5
    simp only [api_suggestions]
    rw [if_neg hq, if_neg (show ¬ (pyStrip q).length ≤ 4 by omega)]

/-- Witness for C6 at a concrete store, loaders, catalog and query. -/
theorem model_load_semantics_witness :
    (((∃ v m, ready (fun _ => some 0) (fun _ => some 0)
          (ModelDir.mk none none) = (some v, some m)) ↔
        (∃ vb mb v m, (ModelDir.mk none none).vecFile = some vb
          ∧ (ModelDir.mk none none).matFile = some mb
          ∧ (fun _ => some 0 : List Nat → Option Nat) vb = some v
          ∧ (fun _ => some 0 : List Nat → Option Nat) mb = some m))
      ∧ (ready (fun _ => some 0) (fun _ => some 0) (ModelDir.mk none none)
            = (none, none)
          ∨ ∃ v m, ready (fun _ => some 0) (fun _ => some 0)
              (ModelDir.mk none none) = (some v, some m))
      ∧ loadedModel (fun _ _ => VectorModel.mk (fun _ => none))
          ((none : Option Nat), (none : Option Nat)) = none
      ∧ get_queryset none [App.mk 1 "Spotify"] "Spotify"
          = fallbackSpec [App.mk 1 "Spotify"] (pyStrip "Spotify")
      ∧ (5 ≤ (pyStrip "Spotify").length →
          search_suggestions none [App.mk 1 "Spotify"] "Spotify"
            = (([App.mk 1 "Spotify"].filter
                (fun a => icontains a.name (pyStrip "Spotify"))).take
                10).map (fun a => a.name))
      ∧ (5 ≤ (pyStrip "Spotify").length →
          api_suggestions none [App.mk 1 "Spotify"] "Spotify"
            = (substringByName [App.mk 1 "Spotify"]
                (pyStrip "Spotify")).take 10)) :=
  model_load_semantics (fun _ => some 0) (fun _ => some 0)
    (ModelDir.mk none none) (fun _ _ => VectorModel.mk (fun _ => none))
    [App.mk 1 "Spotify"] "Spotify" (by decide) (by decide)

/-! ### The exact-match stage -/

theorem searchBuffer_eq (model : Option VectorModel) (apps : List App)
    (q : String) (hq : q ≠ "") :
    searchBuffer model apps q
      = (if !(foundOf (scoredOf model (iexactFirst apps q) apps q))
            || ((iexactFirst apps q).isNone
              && !(foundOf (scoredOf model (iexactFirst apps q) apps q))) then
          appendFallback
            (vectorBuffer (iexactFirst apps q)
              (scoredOf model (iexactFirst apps q) apps q))
            (substringByName apps q)
        else
          vectorBuffer (iexactFirst apps q)
            (scoredOf model (iexactFirst apps q) apps q)) := by
  unfold searchBuffer
  rw [if_neg hq]

theorem searchBuffer_cons_exact (model : Option VectorModel)
    (apps : List App) (q : String) (hq : q ≠ "") (a : App)
    (hex : iexactFirst apps q = some a) :
    ∃ r, searchBuffer model apps q = a :: r := by
  rw [searchBuffer_eq model apps q hq, hex]
  rcases hscd : scoredOf model (some a) apps q with _ | l
  · rw [if_pos (by simp [foundOf])]
    rcases fold_skip_prefix (substringByName apps q)
      (vectorBuffer (some a) none) with ⟨r, hr⟩
    refine ⟨r, ?_⟩
    rw [hr]
    simp [vectorBuffer]
  · rcases l with _ | ⟨p, t⟩
    · rw [if_pos (by simp [foundOf])]
      rcases fold_skip_prefix (substringByName apps q)
        (vectorBuffer (some a) (some [])) with ⟨r, hr⟩
      refine ⟨r, ?_⟩
      rw [hr]
      simp [vectorBuffer]
    · rw [if_neg (by simp [foundOf])]
      exact ⟨((p :: t).take (50 - 1)).map Prod.fst, by simp [vectorBuffer]⟩

/-- C3 counterexample: over the catalog [(1, "A"), (2, "a")] with no model,
the query "a" case-insensitively equals the name of app 2, yet the first
ranked id is 1 — `first()` returns the lowest-pk case-insensitive match, so
the claim fails for any other app whose name also matches. -/
theorem exact_match_first_counterexample :
    iexact (App.mk 2 "a").name (pyStrip "a") = true
    ∧ (App.mk 2 "a") ∈ [App.mk 1 "A", App.mk 2 "a"]
    ∧ get_queryset none [App.mk 1 "A", App.mk 2 "a"] "a" = [1, 2]
    ∧ (get_queryset none [App.mk 1 "A", App.mk 2 "a"] "a").head?
        ≠ some (App.mk 2 "a").id := by
  decide

/-- C3 amended: for every query whose stripped form case-insensitively
equals the name of some app, the app found by the exact lookup — the FIRST
(lowest primary key) such app — has its id first in the RankedResult,
regardless of the model state or vector scores; moreover that app is
indeed a case-insensitive match and has the least id among all matches. -/
theorem exact_match_first_amended (model : Option VectorModel)
    (apps : List App) (q : String) (a : App) (hs : PkSorted apps)
    (hq : pyStrip q ≠ "") (hex : iexactFirst apps (pyStrip q) = some a) :
    (get_queryset model apps q).head? = some a.id
    ∧ a ∈ apps
    ∧ iexact a.name (pyStrip q) = true
    ∧ ∀ b ∈ apps, iexact b.name (pyStrip q) = true → a.id ≤ b.id := by
  have hpf : (apps.filter
      (fun x => iexact x.name (pyStrip q))).Pairwise
        (fun x y => x.id < y.id) :=
    hs.sublist (List.filter_sublist apps)
  have hexf := hex
  unfold iexactFirst at hexf
  rcases hfil : apps.filter (fun x => iexact x.name (pyStrip q))
    with _ | ⟨c, t⟩
  · rw [hfil] at hexf
    cases hexf
  · rw [hfil] at hexf
    have hac : c = a := by
      have : some c = some a := hexf
      exact Option.some_inj.mp this
    subst hac
    have hcf : c ∈ apps.filter (fun x => iexact x.name (pyStrip q)) := by
      rw [hfil]
      exact List.mem_cons_self _ _
    refine ⟨?_, (List.mem_filter.mp hcf).1, (List.mem_filter.mp hcf).2, ?_⟩
    · rcases searchBuffer_cons_exact model apps (pyStrip q) hq c hex
        with ⟨r, hr⟩
      unfold get_queryset
      rw [hr]
      exact dedupIds_head c r
    · intro b hb hbex
      have hbf : b ∈ apps.filter (fun x => iexact x.name (pyStrip q)) :=
        List.mem_filter.mpr ⟨hb, hbex⟩
      rw [hfil] at hbf hpf
      rcases List.mem_cons.mp hbf with rfl | hbt
      · exact le_refl _
      · exact le_of_lt ((List.pairwise_cons.mp hpf).1 b hbt)

/-- Witness for C3 amended at the counterexample catalog: id 1 comes
first. -/
theorem exact_match_first_amended_witness :
    PkSorted [App.mk 1 "A", App.mk 2 "a"]
    ∧ pyStrip "a" ≠ ""
    ∧ iexactFirst [App.mk 1 "A", App.mk 2 "a"] (pyStrip "a")
        = some (App.mk 1 "A")
    ∧ ((get_queryset none [App.mk 1 "A", App.mk 2 "a"] "a").head?
        = some (App.mk 1 "A").id
      ∧ (App.mk 1 "A") ∈ [App.mk 1 "A", App.mk 2 "a"]
      ∧ iexact (App.mk 1 "A").name (pyStrip "a") = true
      ∧ ∀ b ∈ [App.mk 1 "A", App.mk 2 "a"],
          iexact b.name (pyStrip "a") = true → (App.mk 1 "A").id ≤ b.id) :=
  ⟨by decide, by decide, by decide,
    exact_match_first_amended none [App.mk 1 "A", App.mk 2 "a"] "a"
      (App.mk 1 "A") (by decide) (by decide) (by decide)⟩

/-! ### The vector stage of the full search -/

/-- C1: when a model is loaded and scoring succeeds on a non-empty stripped
query over the pk-sorted catalog, the vector stage keeps exactly the rows
whose cosine similarity exceeds 0.001 minus the already-placed exact-match
row (membership characterization), orders the survivors by similarity
descending with ties broken by ascending app id (a permutation of the
survivors, pairwise in the tie-break order), and appends at most
`50 − current buffer size` of them after the exact match; whenever at
least one candidate survived, the search buffer is exactly this vector
buffer (no fallback runs). -/
theorem vector_stage_characterization (m : VectorModel) (apps : List App)
    (q : String) (sims : List ℚ) (hs : PkSorted apps)
    (hq : pyStrip q ≠ "") (hsc : m.score (pyStrip q) = some sims) :
    (∀ a s, (a, s) ∈ simPairs (iexactFirst apps (pyStrip q)) apps sims ↔
      ((∃ i : Nat, sims[i]? = some s ∧ apps[i]? = some a)
        ∧ mkRat 1 1000 < s
        ∧ ∀ x, iexactFirst apps (pyStrip q) = some x → a.id ≠ x.id))
    ∧ (sortByScoreDesc
        (simPairs (iexactFirst apps (pyStrip q)) apps sims)).Perm
        (simPairs (iexactFirst apps (pyStrip q)) apps sims)
    ∧ (sortByScoreDesc
        (simPairs (iexactFirst apps (pyStrip q)) apps sims)).Pairwise tieLT
    ∧ vectorBuffer (iexactFirst apps (pyStrip q))
        (some (sortByScoreDesc
          (simPairs (iexactFirst apps (pyStrip q)) apps sims)))
      = (iexactFirst apps (pyStrip q)).toList
        ++ ((sortByScoreDesc
            (simPairs (iexactFirst apps (pyStrip q)) apps sims)).take
            (50 - (iexactFirst apps (pyStrip q)).toList.length)).map
          Prod.fst
    ∧ (((sortByScoreDesc
          (simPairs (iexactFirst apps (pyStrip q)) apps sims)).take
          (50 - (iexactFirst apps (pyStrip q)).toList.length)).map
          Prod.fst).length
        ≤ 50 - (iexactFirst apps (pyStrip q)).toList.length
    ∧ (sortByScoreDesc (simPairs (iexactFirst apps (pyStrip q)) apps sims)
          ≠ [] →
        searchBuffer (some m) apps (pyStrip q)
          = vectorBuffer (iexactFirst apps (pyStrip q))
              (some (sortByScoreDesc
                (simPairs (iexactFirst apps (pyStrip q)) apps sims)))) := by
  refine ⟨fun a s => mem_simPairs, sortByScoreDesc_perm _,
    sortByScoreDesc_tie _ (simPairs_pairwise_id hs), rfl, ?_, ?_⟩
  · rw [List.length_map, List.length_take]
    exact min_le_left _ _
  · intro hne
    have hscd : scoredOf (some m) (iexactFirst apps (pyStrip q)) apps
        (pyStrip q)
        = some (sortByScoreDesc
            (simPairs (iexactFirst apps (pyStrip q)) apps sims)) := by
      simp [scoredOf, hsc]
    rw [searchBuffer_eq (some m) apps (pyStrip q) hq, hscd]
    rcases hL : sortByScoreDesc
        (simPairs (iexactFirst apps (pyStrip q)) apps sims)
      with _ | ⟨p, t⟩
    · exact absurd hL hne
    · rw [if_neg (by simp [foundOf])]

/-- Witness for C1: a three-app catalog, query "bb" (exact match id 2),
similarities (1/2, 1/2, 0) — row 2 is dropped as the exact match, row 1
survives. -/
theorem vector_stage_characterization_witness :
    PkSorted [App.mk 1 "aa", App.mk 2 "bb", App.mk 3 "cc"]
    ∧ pyStrip "bb" ≠ ""
    ∧ (VectorModel.mk (fun _ => some [mkRat 1 2, mkRat 1 2, 0])).score
        (pyStrip "bb") = some [mkRat 1 2, mkRat 1 2, 0]
    ∧ ((∀ a s, (a, s) ∈ simPairs
          (iexactFirst [App.mk 1 "aa", App.mk 2 "bb", App.mk 3 "cc"]
            (pyStrip "bb"))
          [App.mk 1 "aa", App.mk 2 "bb", App.mk 3 "cc"]
          [mkRat 1 2, mkRat 1 2, 0] ↔
        ((∃ i : Nat, [mkRat 1 2, mkRat 1 2, 0][i]? = some s
            ∧ [App.mk 1 "aa", App.mk 2 "bb", App.mk 3 "cc"][i]? = some a)
          ∧ mkRat 1 1000 < s
          ∧ ∀ x, iexactFirst [App.mk 1 "aa", App.mk 2 "bb", App.mk 3 "cc"]
              (pyStrip "bb") = some x → a.id ≠ x.id))
      ∧ (sortByScoreDesc
          (simPairs (iexactFirst [App.mk 1 "aa", App.mk 2 "bb",
              App.mk 3 "cc"] (pyStrip "bb"))
            [App.mk 1 "aa", App.mk 2 "bb", App.mk 3 "cc"]
            [mkRat 1 2, mkRat 1 2, 0])).Perm
          (simPairs (iexactFirst [App.mk 1 "aa", App.mk 2 "bb",
              App.mk 3 "cc"] (pyStrip "bb"))
            [App.mk 1 "aa", App.mk 2 "bb", App.mk 3 "cc"]
            [mkRat 1 2, mkRat 1 2, 0])
      ∧ (sortByScoreDesc
          (simPairs (iexactFirst [App.mk 1 "aa", App.mk 2 "bb",
              App.mk 3 "cc"] (pyStrip "bb"))
            [App.mk 1 "aa", App.mk 2 "bb", App.mk 3 "cc"]
            [mkRat 1 2, mkRat 1 2, 0])).Pairwise tieLT
      ∧ vectorBuffer (iexactFirst [App.mk 1 "aa", App.mk 2 "bb",
            App.mk 3 "cc"] (pyStrip "bb"))
          (some (sortByScoreDesc
            (simPairs (iexactFirst [App.mk 1 "aa", App.mk 2 "bb",
                App.mk 3 "cc"] (pyStrip "bb"))
              [App.mk 1 "aa", App.mk 2 "bb", App.mk 3 "cc"]
              [mkRat 1 2, mkRat 1 2, 0])))
        = (iexactFirst [App.mk 1 "aa", App.mk 2 "bb", App.mk 3 "cc"]
            (pyStrip "bb")).toList
          ++ ((sortByScoreDesc
              (simPairs (iexactFirst [App.mk 1 "aa", App.mk 2 "bb",
                  App.mk 3 "cc"] (pyStrip "bb"))
                [App.mk 1 "aa", App.mk 2 "bb", App.mk 3 "cc"]
                [mkRat 1 2, mkRat 1 2, 0])).take
              (50 - (iexactFirst [App.mk 1 "aa", App.mk 2 "bb",
                  App.mk 3 "cc"] (pyStrip "bb")).toList.length)).map
            Prod.fst
      ∧ (((sortByScoreDesc
            (simPairs (iexactFirst [App.mk 1 "aa", App.mk 2 "bb",
                App.mk 3 "cc"] (pyStrip "bb"))
              [App.mk 1 "aa", App.mk 2 "bb", App.mk 3 "cc"]
              [mkRat 1 2, mkRat 1 2, 0])).take
            (50 - (iexactFirst [App.mk 1 "aa", App.mk 2 "bb",
                App.mk 3 "cc"] (pyStrip "bb")).toList.length)).map
            Prod.fst).length
          ≤ 50 - (iexactFirst [App.mk 1 "aa", App.mk 2 "bb",
              App.mk 3 "cc"] (pyStrip "bb")).toList.length
      ∧ (sortByScoreDesc
            (simPairs (iexactFirst [App.mk 1 "aa", App.mk 2 "bb",
                App.mk 3 "cc"] (pyStrip "bb"))
              [App.mk 1 "aa", App.mk 2 "bb", App.mk 3 "cc"]
              [mkRat 1 2, mkRat 1 2, 0]) ≠ [] →
          searchBuffer
              (some (VectorModel.mk
                (fun _ => some [mkRat 1 2, mkRat 1 2, 0])))
              [App.mk 1 "aa", App.mk 2 "bb", App.mk 3 "cc"]
              (pyStrip "bb")
            = vectorBuffer (iexactFirst [App.mk 1 "aa", App.mk 2 "bb",
                  App.mk 3 "cc"] (pyStrip "bb"))
                (some (sortByScoreDesc
                  (simPairs (iexactFirst [App.mk 1 "aa", App.mk 2 "bb",
                      App.mk 3 "cc"] (pyStrip "bb"))
                    [App.mk 1 "aa", App.mk 2 "bb", App.mk 3 "cc"]
                    [mkRat 1 2, mkRat 1 2, 0]))))) :=
  ⟨by decide, by decide, rfl,
    vector_stage_characterization
      (VectorModel.mk (fun _ => some [mkRat 1 2, mkRat 1 2, 0]))
      [App.mk 1 "aa", App.mk 2 "bb", App.mk 3 "cc"] "bb"
      [mkRat 1 2, mkRat 1 2, 0] (by decide) (by decide) rfl⟩

/-! ### The suggestion endpoints -/

/-- C4 counterexample: on the catalog [(1, "zabc"), (2, "aabc")] the web
suggestion endpoint answers the length-3 query "abc" with ["zabc", "aabc"]
— catalog order, not the alphabetical order the claim demands.  Further
divergences at concrete inputs: the API endpoint serves the length-2 query
"ab" (the claim demands an empty list below length 3), and for the
length-5 query "abcde" with similarity 1/20 the API endpoint (threshold
0.001) returns the app while the web endpoint (threshold 0.1) returns
nothing — the claim states one threshold 0.1 for both. -/
theorem suggestions_policy_counterexample :
    search_suggestions none [App.mk 1 "zabc", App.mk 2 "aabc"] "abc"
      = ["zabc", "aabc"]
    ∧ ((substringByName [App.mk 1 "zabc", App.mk 2 "aabc"]
        (pyStrip "abc")).take 10).map (fun a => a.name) = ["aabc", "zabc"]
    ∧ search_suggestions none [App.mk 1 "zabc", App.mk 2 "aabc"] "abc"
      ≠ ((substringByName [App.mk 1 "zabc", App.mk 2 "aabc"]
          (pyStrip "abc")).take 10).map (fun a => a.name)
    ∧ api_suggestion_names none [App.mk 1 "zabc", App.mk 2 "aabc"] "ab"
      = ["aabc", "zabc"]
    ∧ api_suggestion_names
        (some (VectorModel.mk (fun _ => some [mkRat 1 20])))
        [App.mk 1 "abcdef"] "abcde" = ["abcdef"]
    ∧ search_suggestions
        (some (VectorModel.mk (fun _ => some [mkRat 1 20])))
        [App.mk 1 "abcdef"] "abcde" = [] := by
  decide

/-- C4 amended: the web endpoint returns no suggestions below stripped
length 3; at length 3-4 it returns the first 10 substring matches in
catalog (primary-key) order; at length 5 and up it uses the vector stage
with threshold `similarity ≥ 0.1`, sorted descending (ties by ascending
id) and capped at 10, falling back to the catalog-order substring slice
when the model is absent or scoring fails.  The API endpoint serves every
non-empty stripped query: at length up to 4 it returns the first 10
substring matches in alphabetical order; at length 5 and up it uses
threshold `similarity ≥ 0.001`, sorted descending and capped at 10, with
the alphabetical substring slice as fallback. -/
theorem suggestions_policy_amended (model : Option VectorModel)
    (apps : List App) (q : String) (hs : PkSorted apps) :
    ((pyStrip q).length < 3 → search_suggestions model apps q = [])
    ∧ (3 ≤ (pyStrip q).length → (pyStrip q).length ≤ 4 →
        search_suggestions model apps q
          = ((apps.filter (fun a => icontains a.name (pyStrip q))).take
              10).map (fun a => a.name))
    ∧ (∀ m sims, 5 ≤ (pyStrip q).length → model = some m →
        m.score (pyStrip q) = some sims →
        search_suggestions model apps q
          = ((sortByScoreDesc (suggPairs apps sims (mkRat 1 10))).take
              10).map (fun p => p.1.name)
        ∧ (∀ a s, (a, s) ∈ suggPairs apps sims (mkRat 1 10) ↔
            ((∃ i : Nat, sims[i]? = some s ∧ apps[i]? = some a)
              ∧ mkRat 1 10 ≤ s))
        ∧ (sortByScoreDesc (suggPairs apps sims (mkRat 1 10))).Pairwise
            tieLT
        ∧ (search_suggestions model apps q).length ≤ 10)
    ∧ (5 ≤ (pyStrip q).length →
        (model = none ∨ ∃ m, model = some m ∧ m.score (pyStrip q) = none) →
        search_suggestions model apps q
          = ((apps.filter (fun a => icontains a.name (pyStrip q))).take
              10).map (fun a => a.name))
    ∧ (pyStrip q ≠ "" → (pyStrip q).length ≤ 4 →
        api_suggestion_names model apps q
          = ((substringByName apps (pyStrip q)).take 10).map
            (fun a => a.name))
    ∧ (∀ m sims, 5 ≤ (pyStrip q).length → model = some m →
        m.score (pyStrip q) = some sims →
        api_suggestion_names model apps q
          = ((sortByScoreDesc (suggPairs apps sims (mkRat 1 1000))).take
              10).map (fun p => p.1.name)
        ∧ (api_suggestion_names model apps q).length ≤ 10)
    ∧ (5 ≤ (pyStrip q).length →
        (model = none ∨ ∃ m, model = some m ∧ m.score (pyStrip q) = none) →
        api_suggestion_names model apps q
          = ((substringByName apps (pyStrip q)).take 10).map
            (fun a => a.name)) := by
  refine ⟨?_, ?_, ?_, ?_, ?_, ?_, ?_⟩
  · intro h3
    simp only [search_suggestions]
    rw [if_neg (by omega)]
  · intro h3 h4
    simp only [search_suggestions]
    rw [if_pos (by omega), if_pos (by omega)]
  · rintro m sims h5 rfl hsc
    have heq : search_suggestions (some m) apps q
        = ((sortByScoreDesc (suggPairs apps sims (mkRat 1 10))).take
            10).map (fun p => p.1.name) := by
      simp only [search_suggestions]
      rw [if_pos (by omega), if_neg (by omega), hsc]
    refine ⟨heq, fun a s => mem_suggPairs,
      sortByScoreDesc_tie _ (suggPairs_pairwise_id hs), ?_⟩
    rw [heq, List.length_map, List.length_take]
    exact min_le_left _ _
  · intro h5 hnone
    rcases hnone with rfl | ⟨m, rfl, hsc⟩
    · simp only [search_suggestions]
      rw [if_pos (by omega), if_neg (by omega)]
    · simp only [search_suggestions]
      rw [if_pos (by omega), if_neg (by omega), hsc]
  · intro hq h4
    simp only [api_suggestion_names, api_suggestions]
    rw [if_neg hq, if_pos h4]
  · rintro m sims h5 rfl hsc
    have hq : ¬ pyStrip q = "" := by
      intro he
      rw [he] at h5
      simp at h5
    have heq : api_suggestion_names (some m) apps q
        = ((sortByScoreDesc (suggPairs apps sims (mkRat 1 1000))).take
            10).map (fun p => p.1.name) := by
      simp only [api_suggestion_names, api_suggestions]
      rw [if_neg hq, if_neg (by omega), hsc]
      rw [List.map_map]
      rfl
    refine ⟨heq, ?_⟩
    rw [heq, List.length_map, List.length_take]
    exact min_le_left _ _
  · intro h5 hnone
    have hq : ¬ pyStrip q = "" := by
      intro he
      rw [he] at h5
      simp at h5
    rcases hnone with rfl | ⟨m, rfl, hsc⟩
    · simp only [api_suggestion_names, api_suggestions]
      rw [if_neg hq, if_neg (by omega)]
    · simp only [api_suggestion_names, api_suggestions]
      rw [if_neg hq, if_neg (by omega), hsc]

/-- Witness for C4 amended: the spec example catalog and the length-4
query "face" with no model loaded. -/
theorem suggestions_policy_amended_witness :
    PkSorted [App.mk 1 "Facebook", App.mk 2 "Facebook Lite"]
    ∧ (((pyStrip "face").length < 3 → search_suggestions none [App.mk 1 "Facebook", App.mk 2 "Facebook Lite"] "face" = [])
    ∧ (3 ≤ (pyStrip "face").length → (pyStrip "face").length ≤ 4 →
        search_suggestions none [App.mk 1 "Facebook", App.mk 2 "Facebook Lite"] "face"
          = (([App.mk 1 "Facebook", App.mk 2 "Facebook Lite"].filter (fun a => icontains a.name (pyStrip "face"))).take
              10).map (fun a => a.name))
    ∧ (∀ (m : VectorModel) (sims : List ℚ), 5 ≤ (pyStrip "face").length → none = some m →
        m.score (pyStrip "face") = some sims →
        search_suggestions none [App.mk 1 "Facebook", App.mk 2 "Facebook Lite"] "face"
          = ((sortByScoreDesc (suggPairs [App.mk 1 "Facebook", App.mk 2 "Facebook Lite"] sims (mkRat 1 10))).take
              10).map (fun p => p.1.name)
        ∧ (∀ a s, (a, s) ∈ suggPairs [App.mk 1 "Facebook", App.mk 2 "Facebook Lite"] sims (mkRat 1 10) ↔
            ((∃ i : Nat, sims[i]? = some s ∧ [App.mk 1 "Facebook", App.mk 2 "Facebook Lite"][i]? = some a)
              ∧ mkRat 1 10 ≤ s))
        ∧ (sortByScoreDesc (suggPairs [App.mk 1 "Facebook", App.mk 2 "Facebook Lite"] sims (mkRat 1 10))).Pairwise
            tieLT
        ∧ (search_suggestions none [App.mk 1 "Facebook", App.mk 2 "Facebook Lite"] "face").length ≤ 10)
    ∧ (5 ≤ (pyStrip "face").length →
        ((none : Option VectorModel) = none ∨ ∃ m : VectorModel, none = some m ∧ m.score (pyStrip "face") = none) →
        search_suggestions none [App.mk 1 "Facebook", App.mk 2 "Facebook Lite"] "face"
          = (([App.mk 1 "Facebook", App.mk 2 "Facebook Lite"].filter (fun a => icontains a.name (pyStrip "face"))).take
              10).map (fun a => a.name))
    ∧ (pyStrip "face" ≠ "" → (pyStrip "face").length ≤ 4 →
        api_suggestion_names none [App.mk 1 "Facebook", App.mk 2 "Facebook Lite"] "face"
          = ((substringByName [App.mk 1 "Facebook", App.mk 2 "Facebook Lite"] (pyStrip "face")).take 10).map
            (fun a => a.name))
    ∧ (∀ (m : VectorModel) (sims : List ℚ), 5 ≤ (pyStrip "face").length → none = some m →
        m.score (pyStrip "face") = some sims →
        api_suggestion_names none [App.mk 1 "Facebook", App.mk 2 "Facebook Lite"] "face"
          = ((sortByScoreDesc (suggPairs [App.mk 1 "Facebook", App.mk 2 "Facebook Lite"] sims (mkRat 1 1000))).take
              10).map (fun p => p.1.name)
        ∧ (api_suggestion_names none [App.mk 1 "Facebook", App.mk 2 "Facebook Lite"] "face").length ≤ 10)
    ∧ (5 ≤ (pyStrip "face").length →
        ((none : Option VectorModel) = none ∨ ∃ m : VectorModel, none = some m ∧ m.score (pyStrip "face") = none) →
        api_suggestion_names none [App.mk 1 "Facebook", App.mk 2 "Facebook Lite"] "face"
          = ((substringByName [App.mk 1 "Facebook", App.mk 2 "Facebook Lite"] (pyStrip "face")).take 10).map
            (fun a => a.name))) :=
  ⟨by decide,
    suggestions_policy_amended none [App.mk 1 "Facebook", App.mk 2 "Facebook Lite"] "face" (by decide)⟩

end AppReviewSearch
